import Mathlib

/-!
Shallow embedding of the frame-resource / GPU-synchronization core of
`Week4-6-ShapeComplete.cpp` (a Direct3D 12 shapes demo).

Modelling conventions:
* `float` scalars are modelled as `Rat` (the claims under study never depend
  on floating-point rounding).
* `XMFLOAT4X4` is modelled as `Mat4 := Fin 4 → Fin 4 → Rat`; the one matrix
  operation the object-update pass actually computes, `XMMatrixTranspose`,
  is modelled concretely.  The external DirectXMath operations used only to
  build the scene-pass record (`XMMatrixMultiply`, `XMMatrixInverse`,
  `XMMatrixLookAtLH`) are modelled as constructors of a free term algebra
  `MatExpr`, since their numeric content is external library code and no
  claim depends on it.
* GPU-observable actions (fence waits, constant-buffer writes, command-list
  submission, present, fence signal) are recorded in an event trace `Ev`,
  in program order, so that temporal claims become statements about traces.
* `C++ int` fields that the claims require to be able to go negative
  (`RenderItem::NumFramesDirty`) are modelled as `Int`.
-/

/-- Scalars standing in for `float`. -/
abbrev Flt := Rat

/-- Model of `XMFLOAT4X4`: a 4×4 matrix of scalars. -/
abbrev Mat4 := Fin 4 → Fin 4 → Flt

/-- `MathHelper::Identity4x4()`. -/
def Identity4x4 : Mat4 := fun i j => if i = j then 1 else 0

/-- `XMMatrixTranspose`, computed concretely (this is the operation the
per-object update pass applies to each world matrix before publishing it). -/
def XMMatrixTranspose (m : Mat4) : Mat4 := fun i j => m j i

/-- The camera's eye position.  In the source it is computed from the
spherical coordinates `mTheta`, `mPhi`, `mRadius` by external trigonometric
functions (`sinf`/`cosf`); we represent the computed position by the
parameters it is computed from. -/
structure EyePos where
  theta : Flt
  phi : Flt
  radius : Flt
deriving DecidableEq

/-- Free term algebra over the external DirectXMath matrix operations used
by `UpdateMainPassCB` and `UpdateCamera`.  The numeric content of these
operations lives in an external library; the claims only require knowing
which record is computed and written where, so the terms are kept symbolic. -/
inductive MatExpr where
  | stored (m : Mat4)
  | lookAtLH (eye : EyePos)
  | mul (a b : MatExpr)
  | inverse (a : MatExpr)
  | transpose (a : MatExpr)
deriving DecidableEq

/-- Model of `ObjectConstants` (one per-object constant-buffer record,
holding the published world matrix). -/
structure ObjectConstants where
  World : Mat4
deriving DecidableEq

/-- Model of `PassConstants` (the aggregate scene-pass record: camera
matrices, eye position, render-target metadata and timing), with exactly
the fields `UpdateMainPassCB` assigns. -/
structure PassConstants where
  View : MatExpr
  InvView : MatExpr
  Proj : MatExpr
  InvProj : MatExpr
  ViewProj : MatExpr
  InvViewProj : MatExpr
  EyePosW : EyePos
  RenderTargetSize : Flt × Flt
  InvRenderTargetSize : Flt × Flt
  NearZ : Flt
  FarZ : Flt
  TotalTime : Flt
  DeltaTime : Flt
deriving DecidableEq

/-- `const int gNumFrameResources = 3;` — the ring length used by the
source.  The definitions below take the ring length as a parameter `R`
standing for this constant, so the claims can be settled for every ring
length; this constant instantiates them at the source's value. -/
def gNumFrameResources : Nat := 3

/-- Model of `struct RenderItem` (the drawable-item bookkeeping record),
with the source's default member initializers.  `Geo` is a non-owning
pointer to shared mesh data, modelled as an optional reference identifier;
`PrimitiveType` is a `D3D12` enum value, modelled as its numeric code
(`D3D_PRIMITIVE_TOPOLOGY_TRIANGLELIST = 4`).  `ObjCBIndex` is `UINT` with
default `-1`, i.e. `2^32 - 1` after wraparound. -/
structure RenderItem where
  World : Mat4 := Identity4x4
  NumFramesDirty : Int := (gNumFrameResources : Int)
  ObjCBIndex : Nat := 2 ^ 32 - 1
  Geo : Option Nat := none
  PrimitiveType : Nat := 4
  IndexCount : Nat := 0
  StartIndexLocation : Nat := 0
  BaseVertexLocation : Int := 0
deriving DecidableEq

/-- Modelled from the spec (`FrameResource.h` is not under `src/`): a Frame
Slot owns an upload buffer of per-object records, an upload buffer of
scene-pass records, and a fence watermark, with `Fence = 0` meaning "never
submitted".  The command allocator carries no data the claims depend on and
is elided. -/
structure FrameResource where
  ObjectCB : List ObjectConstants
  PassCB : List PassConstants
  Fence : Nat
deriving DecidableEq

/-- Default slot used as the out-of-range fallback for list indexing. -/
def dFR : FrameResource := ⟨[], [], 0⟩

/-- Default per-object record used as the out-of-range fallback. -/
def dObj : ObjectConstants := ⟨Identity4x4⟩

/-- Model of `GameTimer` restricted to the two accessors the update passes
read. -/
structure GameTimer where
  TotalTime : Flt
  DeltaTime : Flt
deriving DecidableEq

/-- The per-frame external inputs of `ShapesApp::Update`: the keyboard
state read by `OnKeyboardInput`, the GPU-side completed fence value
returned by `mFence->GetCompletedValue()`, and the timer. -/
structure FrameInput where
  key1Down : Bool
  completedFenceValue : Nat
  gt : GameTimer
deriving DecidableEq

/-- Model of the mutable state of `class ShapesApp` that the per-frame
loop reads or writes.  (`mMainPassCB` is the member the scene-pass record
is recomputed into each frame before being copied to the current slot.) -/
structure ShapesApp where
  mFrameResources : List FrameResource
  mCurrFrameResourceIndex : Nat
  mAllRitems : List RenderItem
  mMainPassCB : PassConstants
  mCurrentFence : Nat
  mCurrBackBuffer : Nat
  mView : MatExpr
  mProj : MatExpr
  mEyePos : EyePos
  mTheta : Flt
  mPhi : Flt
  mRadius : Flt
  mClientWidth : Flt
  mClientHeight : Flt
  mIsWireframe : Bool
deriving DecidableEq

/-- GPU-observable events emitted by the per-frame code, in program order:
the blocking fence wait in `Update`, the two constant-buffer uploads
(`CopyData` on the current slot's object and pass buffers), and the
submission sequence of `Draw` (`ExecuteCommandLists`, `Present`,
`Signal`). -/
inductive Ev where
  | waitForFence (target : Nat)
  | objWrite (slot recIdx : Nat)
  | passWrite (slot recIdx : Nat)
  | executeCommandLists
  | present
  | signal (value : Nat)
deriving DecidableEq

/-- `mCurrFrameResource = mFrameResources[mCurrFrameResourceIndex].get()`. -/
def currFrameResource (s : ShapesApp) : FrameResource :=
  s.mFrameResources.getD s.mCurrFrameResourceIndex dFR

/-- The object buffer of ring slot `k`. -/
def slotObjectCB (s : ShapesApp) (k : Nat) : List ObjectConstants :=
  (s.mFrameResources.getD k dFR).ObjectCB

/-- `ShapesApp::OnKeyboardInput`: sets `mIsWireframe` from the keyboard
state and does nothing else. -/
def OnKeyboardInput (inp : FrameInput) (s : ShapesApp) : ShapesApp :=
  { s with mIsWireframe := inp.key1Down }

/-- `ShapesApp::UpdateCamera`: converts the spherical coordinates to the
eye position (external trigonometry, kept symbolic) and rebuilds the view
matrix with `XMMatrixLookAtLH`. -/
def UpdateCamera (s : ShapesApp) : ShapesApp :=
  { s with
    mEyePos := ⟨s.mTheta, s.mPhi, s.mRadius⟩
    mView := MatExpr.lookAtLH ⟨s.mTheta, s.mPhi, s.mRadius⟩ }

/-- The ring advance at the top of `ShapesApp::Update`:
`mCurrFrameResourceIndex = (mCurrFrameResourceIndex + 1) % gNumFrameResources`
(the `mCurrFrameResource` pointer is a derived view, modelled by
`currFrameResource`). -/
def advanceFrameResource (R : Nat) (s : ShapesApp) : ShapesApp :=
  { s with mCurrFrameResourceIndex := (s.mCurrFrameResourceIndex + 1) % R }

/-- The loop body of `ShapesApp::UpdateObjectCBs`: walk the render items in
order; for each item with `NumFramesDirty > 0`, store the transpose of its
world matrix into the current slot's object buffer at `ObjCBIndex`
(`currObjectCB->CopyData`, modelled by `List.set`) and decrement
`NumFramesDirty`; items that are not dirty are skipped.  Returns the
updated item list, the updated buffer, and the buffer-write events for ring
slot `c`. -/
def updateObjectCBsItems (c : Nat) :
    List RenderItem → List ObjectConstants →
      List RenderItem × List ObjectConstants × List Ev
  | [], buf => ([], buf, [])
  | e :: rest, buf =>
    if 0 < e.NumFramesDirty then
      let objConstants : ObjectConstants := ⟨XMMatrixTranspose e.World⟩
      let buf1 := buf.set e.ObjCBIndex objConstants
      let out := updateObjectCBsItems c rest buf1
      ({ e with NumFramesDirty := e.NumFramesDirty - 1 } :: out.1,
       out.2.1,
       Ev.objWrite c e.ObjCBIndex :: out.2.2)
    else
      let out := updateObjectCBsItems c rest buf
      (e :: out.1, out.2.1, out.2.2)

/-- `ShapesApp::UpdateObjectCBs` at the state level: runs the item walk
against the current slot's object buffer and stores the result back. -/
def UpdateObjectCBs (s : ShapesApp) : ShapesApp × List Ev :=
  let fr := currFrameResource s
  let out := updateObjectCBsItems s.mCurrFrameResourceIndex s.mAllRitems fr.ObjectCB
  ({ s with
      mAllRitems := out.1
      mFrameResources :=
        s.mFrameResources.set s.mCurrFrameResourceIndex { fr with ObjectCB := out.2.1 } },
   out.2.2)

/-- The scene-pass record computed by `ShapesApp::UpdateMainPassCB` from
the current view/projection matrices, eye position, client size and timer
(matrix arithmetic kept symbolic; `NearZ`/`FarZ` are the source's literals). -/
def computeMainPassCB (gt : GameTimer) (s : ShapesApp) : PassConstants :=
  let view := s.mView
  let proj := s.mProj
  let viewProj := MatExpr.mul view proj
  let invView := MatExpr.inverse view
  let invProj := MatExpr.inverse proj
  let invViewProj := MatExpr.inverse viewProj
  { View := MatExpr.transpose view
    InvView := MatExpr.transpose invView
    Proj := MatExpr.transpose proj
    InvProj := MatExpr.transpose invProj
    ViewProj := MatExpr.transpose viewProj
    InvViewProj := MatExpr.transpose invViewProj
    EyePosW := s.mEyePos
    RenderTargetSize := (s.mClientWidth, s.mClientHeight)
    InvRenderTargetSize := (1 / s.mClientWidth, 1 / s.mClientHeight)
    NearZ := 1
    FarZ := 1000
    TotalTime := gt.TotalTime
    DeltaTime := gt.DeltaTime }

/-- `ShapesApp::UpdateMainPassCB`: recomputes `mMainPassCB` and copies it
into the current slot's pass buffer at record index 0
(`currPassCB->CopyData(0, mMainPassCB)`), with no guard of any kind. -/
def UpdateMainPassCB (gt : GameTimer) (s : ShapesApp) : ShapesApp × List Ev :=
  let cb := computeMainPassCB gt s
  let fr := currFrameResource s
  ({ s with
      mMainPassCB := cb
      mFrameResources :=
        s.mFrameResources.set s.mCurrFrameResourceIndex
          { fr with PassCB := fr.PassCB.set 0 cb } },
   [Ev.passWrite s.mCurrFrameResourceIndex 0])

/-- `ShapesApp::Update`: keyboard input, camera update, ring advance, the
guarded blocking wait on the about-to-be-reused slot's fence watermark
(`if (Fence != 0 && GetCompletedValue() < Fence) { ... WaitForSingleObject ... }`),
then the two constant-buffer update passes. -/
def Update (R : Nat) (inp : FrameInput) (s : ShapesApp) : ShapesApp × List Ev :=
  let s0 := UpdateCamera (OnKeyboardInput inp s)
  let s1 := advanceFrameResource R s0
  let fr := currFrameResource s1
  let waitEvs :=
    if fr.Fence ≠ 0 ∧ inp.completedFenceValue < fr.Fence then
      [Ev.waitForFence fr.Fence]
    else []
  let out2 := UpdateObjectCBs s1
  let out3 := UpdateMainPassCB inp.gt out2.1
  (out3.1, waitEvs ++ out2.2 ++ out3.2)

/-- `SwapChainBufferCount = 2` (declared in `d3dApp.h`, which is not under
`src/`; the standard double-buffered swap chain of the template). -/
def SwapChainBufferCount : Nat := 2

/-- `ShapesApp::Draw`: after recording, the frame's command list is
enqueued (`ExecuteCommandLists`), the swap chain is presented, the back
buffer index cycles, the fence counter is pre-incremented and stamped on
the current slot (`mCurrFrameResource->Fence = ++mCurrentFence`), and the
signal is enqueued last (`mCommandQueue->Signal(mFence, mCurrentFence)`). -/
def Draw (s : ShapesApp) : ShapesApp × List Ev :=
  let s1 := { s with mCurrBackBuffer := (s.mCurrBackBuffer + 1) % SwapChainBufferCount }
  let newFence := s1.mCurrentFence + 1
  let fr := currFrameResource s1
  let s2 :=
    { s1 with
      mCurrentFence := newFence
      mFrameResources :=
        s1.mFrameResources.set s1.mCurrFrameResourceIndex { fr with Fence := newFence } }
  (s2, [Ev.executeCommandLists, Ev.present, Ev.signal newFence])

/-- One rendered frame as driven by the message loop: `Update` then
`Draw`, concatenating the event traces in program order. -/
def frameStep (R : Nat) (inp : FrameInput) (s : ShapesApp) : ShapesApp × List Ev :=
  let out1 := Update R inp s
  let out2 := Draw out1.1
  (out2.1, out1.2 ++ out2.2)

/-- A run of consecutive rendered frames, one per input record. -/
def runFrames (R : Nat) : List FrameInput → ShapesApp → ShapesApp × List Ev
  | [], s => (s, [])
  | inp :: rest, s =>
    let out1 := frameStep R inp s
    let out2 := runFrames R rest out1.1
    (out2.1, out1.2 ++ out2.2)

/-- The effect of one `UpdateObjectCBs` walk on a single item: decrement
`NumFramesDirty` when it is positive, leave the item alone otherwise. -/
def decDirty (e : RenderItem) : RenderItem :=
  if 0 < e.NumFramesDirty then { e with NumFramesDirty := e.NumFramesDirty - 1 } else e

/-- Reading a just-written position of a buffer. -/
theorem getD_set_self {α : Type} (l : List α) (i : Nat) (v d : α) (h : i < l.length) :
    (l.set i v).getD i d = v := by
  simp [List.getD_eq_getElem?_getD, List.getElem?_set, h]

/-- Reading any other position of a buffer after a write. -/
theorem getD_set_ne {α : Type} (l : List α) (i j : Nat) (v d : α) (h : i ≠ j) :
    (l.set i v).getD j d = l.getD j d := by
  simp [List.getD_eq_getElem?_getD, List.getElem?_set, h]

/-- The item walk maps `decDirty` over the item list: every dirty item's
count drops by exactly one and no other item field changes. -/
theorem updateObjectCBsItems_items (c : Nat) (items : List RenderItem)
    (buf : List ObjectConstants) :
    (updateObjectCBsItems c items buf).1 = items.map decDirty := by
  induction items generalizing buf with
  | nil => rfl
  | cons a t ih =>
    by_cases h : 0 < a.NumFramesDirty
    · simp [updateObjectCBsItems, h, decDirty, ih]
    · simp [updateObjectCBsItems, h, decDirty, ih]

/-- The item walk never changes the buffer's length. -/
theorem updateObjectCBsItems_length (c : Nat) (items : List RenderItem)
    (buf : List ObjectConstants) :
    (updateObjectCBsItems c items buf).2.1.length = buf.length := by
  induction items generalizing buf with
  | nil => rfl
  | cons a t ih =>
    by_cases h : 0 < a.NumFramesDirty
    · simp [updateObjectCBsItems, h, ih]
    · simp [updateObjectCBsItems, h, ih]

/-- Every event the item walk emits is an object-buffer write on slot `c`. -/
theorem updateObjectCBsItems_events (c : Nat) (items : List RenderItem)
    (buf : List ObjectConstants) :
    ∀ ev ∈ (updateObjectCBsItems c items buf).2.2, ∃ i, ev = Ev.objWrite c i := by
  induction items generalizing buf with
  | nil => intro ev h; simp [updateObjectCBsItems] at h
  | cons a t ih =>
    intro ev h
    by_cases hd : 0 < a.NumFramesDirty
    · simp only [updateObjectCBsItems, if_pos hd, List.mem_cons] at h
      rcases h with h | h
      · exact ⟨a.ObjCBIndex, h⟩
      · exact ih _ ev h
    · simp only [updateObjectCBsItems, if_neg hd] at h
      exact ih _ ev h

/-- Buffer positions that are no dirty item's slot index are untouched by
the item walk. -/
theorem updateObjectCBsItems_untouched (c : Nat) (items : List RenderItem)
    (buf : List ObjectConstants) (i : Nat) (d : ObjectConstants)
    (h : ∀ e ∈ items, 0 < e.NumFramesDirty → e.ObjCBIndex ≠ i) :
    (updateObjectCBsItems c items buf).2.1.getD i d = buf.getD i d := by
  induction items generalizing buf with
  | nil => rfl
  | cons a t ih =>
    by_cases hd : 0 < a.NumFramesDirty
    · have hne : a.ObjCBIndex ≠ i := h a (List.mem_cons_self a t) hd
      have hstep : (updateObjectCBsItems c (a :: t) buf).2.1
          = (updateObjectCBsItems c t
              (buf.set a.ObjCBIndex ⟨XMMatrixTranspose a.World⟩)).2.1 := by
        simp [updateObjectCBsItems, hd]
      rw [hstep, ih _ (fun e he => h e (List.mem_cons_of_mem a he)),
        getD_set_ne _ _ _ _ _ hne]
    · have hstep : (updateObjectCBsItems c (a :: t) buf).2.1
          = (updateObjectCBsItems c t buf).2.1 := by
        simp [updateObjectCBsItems, hd]
      rw [hstep, ih _ (fun e he => h e (List.mem_cons_of_mem a he))]

/-- What the item walk leaves at a given item's slot index, assuming the
slot indices of the items are pairwise distinct (as `BuildRenderItems`
assigns them) and the index is in range: the transpose of that item's world
matrix if the item was dirty, the old record otherwise. -/
theorem updateObjectCBsItems_at_index (c : Nat) (items : List RenderItem)
    (buf : List ObjectConstants) (p : Nat) (e : RenderItem)
    (hp : items.get? p = some e)
    (hnd : (items.map RenderItem.ObjCBIndex).Nodup)
    (hb : e.ObjCBIndex < buf.length) :
    (updateObjectCBsItems c items buf).2.1.getD e.ObjCBIndex dObj
      = if 0 < e.NumFramesDirty then ⟨XMMatrixTranspose e.World⟩
        else buf.getD e.ObjCBIndex dObj := by
  induction items generalizing buf p with
  | nil => simp at hp
  | cons a t ih =>
    rw [List.map_cons] at hnd
    have hna : a.ObjCBIndex ∉ t.map RenderItem.ObjCBIndex := (List.nodup_cons.mp hnd).1
    have hnd' : (t.map RenderItem.ObjCBIndex).Nodup := (List.nodup_cons.mp hnd).2
    cases p with
    | zero =>
      have he : a = e := by simpa using hp
      subst he
      have ht : ∀ e' ∈ t, 0 < e'.NumFramesDirty → e'.ObjCBIndex ≠ a.ObjCBIndex := by
        intro e' he' _ hq
        exact hna (hq ▸ List.mem_map_of_mem RenderItem.ObjCBIndex he')
      by_cases hd : 0 < a.NumFramesDirty
      · have hstep : (updateObjectCBsItems c (a :: t) buf).2.1
            = (updateObjectCBsItems c t
                (buf.set a.ObjCBIndex ⟨XMMatrixTranspose a.World⟩)).2.1 := by
          simp [updateObjectCBsItems, hd]
        rw [if_pos hd, hstep, updateObjectCBsItems_untouched c t _ _ _ ht,
          getD_set_self _ _ _ _ hb]
      · have hstep : (updateObjectCBsItems c (a :: t) buf).2.1
            = (updateObjectCBsItems c t buf).2.1 := by
          simp [updateObjectCBsItems, hd]
        rw [if_neg hd, hstep, updateObjectCBsItems_untouched c t _ _ _ ht]
    | succ q =>
      have hq : t.get? q = some e := by simpa using hp
      by_cases hd : 0 < a.NumFramesDirty
      · have hstep : (updateObjectCBsItems c (a :: t) buf).2.1
            = (updateObjectCBsItems c t
                (buf.set a.ObjCBIndex ⟨XMMatrixTranspose a.World⟩)).2.1 := by
          simp [updateObjectCBsItems, hd]
        have hane : a.ObjCBIndex ≠ e.ObjCBIndex := by
          intro hq2
          exact hna (hq2 ▸ List.mem_map_of_mem RenderItem.ObjCBIndex (List.get?_mem hq))
        have hb1 : e.ObjCBIndex < (buf.set a.ObjCBIndex ⟨XMMatrixTranspose a.World⟩).length := by
          rw [List.length_set]; exact hb
        rw [hstep, ih _ q hq hnd' hb1, getD_set_ne _ _ _ _ _ hane]
      · have hstep : (updateObjectCBsItems c (a :: t) buf).2.1
            = (updateObjectCBsItems c t buf).2.1 := by
          simp [updateObjectCBsItems, hd]
        rw [hstep, ih _ q hq hnd' hb]

/-- The fence watermark of the slot the ring is about to reuse: the value
`mCurrFrameResource->Fence` read by the guard in `ShapesApp::Update` right
after the ring advance. -/
def reusedSlotFence (R : Nat) (s : ShapesApp) : Nat :=
  (s.mFrameResources.getD ((s.mCurrFrameResourceIndex + 1) % R) dFR).Fence

/-- `Update` leaves the fence counter alone (only `Draw` advances it). -/
theorem Update_mCurrentFence (R : Nat) (inp : FrameInput) (s : ShapesApp) :
    (Update R inp s).1.mCurrentFence = s.mCurrentFence := by
  simp [Update, UpdateObjectCBs, UpdateMainPassCB, OnKeyboardInput, UpdateCamera,
    advanceFrameResource]

/-- `Update` moves the ring index to `(current + 1) % R`. -/
theorem Update_index (R : Nat) (inp : FrameInput) (s : ShapesApp) :
    (Update R inp s).1.mCurrFrameResourceIndex = (s.mCurrFrameResourceIndex + 1) % R := by
  simp [Update, UpdateObjectCBs, UpdateMainPassCB, OnKeyboardInput, UpdateCamera,
    advanceFrameResource]

/-- The events of a rendered frame are the update-phase events followed by
the submission sequence of `Draw`, whose signal carries the incremented
fence counter. -/
theorem frameStep_events (R : Nat) (inp : FrameInput) (s : ShapesApp) :
    (frameStep R inp s).2
      = (Update R inp s).2
          ++ [Ev.executeCommandLists, Ev.present, Ev.signal (s.mCurrentFence + 1)] := by
  simp [frameStep, Draw, Update_mCurrentFence]

/-- The fence counter advances by exactly one per rendered frame. -/
theorem frameStep_mCurrentFence (R : Nat) (inp : FrameInput) (s : ShapesApp) :
    (frameStep R inp s).1.mCurrentFence = s.mCurrentFence + 1 := by
  simp [frameStep, Draw, Update_mCurrentFence]

/-- A rendered frame leaves the ring index at `(current + 1) % R`. -/
theorem frameStep_index (R : Nat) (inp : FrameInput) (s : ShapesApp) :
    (frameStep R inp s).1.mCurrFrameResourceIndex = (s.mCurrFrameResourceIndex + 1) % R := by
  simp [frameStep, Draw, Update_index]

/-- A rendered frame maps `decDirty` over the item list and changes the
items in no other way. -/
theorem frameStep_items (R : Nat) (inp : FrameInput) (s : ShapesApp) :
    (frameStep R inp s).1.mAllRitems = s.mAllRitems.map decDirty := by
  simp [frameStep, Draw, Update, UpdateObjectCBs, UpdateMainPassCB, OnKeyboardInput,
    UpdateCamera, advanceFrameResource, updateObjectCBsItems_items]

/-- A rendered frame preserves the ring's length. -/
theorem frameStep_ring_length (R : Nat) (inp : FrameInput) (s : ShapesApp) :
    (frameStep R inp s).1.mFrameResources.length = s.mFrameResources.length := by
  simp [frameStep, Draw, Update, UpdateObjectCBs, UpdateMainPassCB, OnKeyboardInput,
    UpdateCamera, advanceFrameResource]

/-- Ring slots other than the newly current one are untouched by a
rendered frame. -/
theorem frameStep_slot_other (R : Nat) (inp : FrameInput) (s : ShapesApp) (k : Nat)
    (hk : k ≠ (s.mCurrFrameResourceIndex + 1) % R) :
    (frameStep R inp s).1.mFrameResources.getD k dFR
      = s.mFrameResources.getD k dFR := by
  have hck : (s.mCurrFrameResourceIndex + 1) % R ≠ k := Ne.symm hk
  simp only [frameStep, Draw, Update, UpdateObjectCBs, UpdateMainPassCB, OnKeyboardInput,
    UpdateCamera, advanceFrameResource, currFrameResource]
  rw [getD_set_ne _ _ _ _ _ hck, getD_set_ne _ _ _ _ _ hck, getD_set_ne _ _ _ _ _ hck]

/-- The full record left in the newly current ring slot by one rendered
frame: the object buffer rewritten by the item walk, the pass buffer with
the recomputed scene-pass record stored at index 0, and the incremented
fence counter stamped as the watermark. -/
theorem frameStep_slot_cur (R : Nat) (inp : FrameInput) (s : ShapesApp)
    (hl : (s.mCurrFrameResourceIndex + 1) % R < s.mFrameResources.length) :
    (frameStep R inp s).1.mFrameResources.getD ((s.mCurrFrameResourceIndex + 1) % R) dFR
      = { ObjectCB := (updateObjectCBsItems ((s.mCurrFrameResourceIndex + 1) % R)
              s.mAllRitems
              (slotObjectCB s ((s.mCurrFrameResourceIndex + 1) % R))).2.1
          PassCB := (s.mFrameResources.getD ((s.mCurrFrameResourceIndex + 1) % R) dFR).PassCB.set 0
            (computeMainPassCB inp.gt (UpdateCamera (OnKeyboardInput inp s)))
          Fence := s.mCurrentFence + 1 } := by
  simp only [frameStep, Draw, Update, UpdateObjectCBs, UpdateMainPassCB, OnKeyboardInput,
    UpdateCamera, advanceFrameResource, currFrameResource, slotObjectCB, computeMainPassCB,
    List.set_set]
  rw [getD_set_self _ _ _ _ (by simpa using hl), getD_set_self _ _ _ _ (by simpa using hl),
    getD_set_self _ _ _ _ (by simpa using hl)]

/-- If the newly current index is out of range (an ill-formed ring), the
buffer writes are vacuous and the ring is unchanged. -/
theorem frameStep_frames_oob (R : Nat) (inp : FrameInput) (s : ShapesApp)
    (h : s.mFrameResources.length ≤ (s.mCurrFrameResourceIndex + 1) % R) :
    (frameStep R inp s).1.mFrameResources = s.mFrameResources := by
  simp only [frameStep, Draw, Update, UpdateObjectCBs, UpdateMainPassCB, OnKeyboardInput,
    UpdateCamera, advanceFrameResource, currFrameResource, List.set_set]
  exact List.set_eq_of_length_le h

/-- A rendered frame preserves the length of every slot's object buffer. -/
theorem frameStep_slotObjectCB_length (R : Nat) (inp : FrameInput) (s : ShapesApp) (k : Nat) :
    (slotObjectCB (frameStep R inp s).1 k).length = (slotObjectCB s k).length := by
  by_cases hk : k = (s.mCurrFrameResourceIndex + 1) % R
  · by_cases hl : k < s.mFrameResources.length
    · rw [slotObjectCB, hk, frameStep_slot_cur R inp s (hk ▸ hl)]
      rw [updateObjectCBsItems_length]
    · rw [slotObjectCB, frameStep_frames_oob R inp s (hk ▸ Nat.le_of_not_lt hl)]
      rfl
  · rw [slotObjectCB, frameStep_slot_other R inp s k hk]
    rfl

/-- `decDirty` only touches the dirty counter: the slot index is kept. -/
theorem decDirty_ObjCBIndex (e : RenderItem) : (decDirty e).ObjCBIndex = e.ObjCBIndex := by
  unfold decDirty; split <;> rfl

/-- `decDirty` only touches the dirty counter: the world matrix is kept. -/
theorem decDirty_World (e : RenderItem) : (decDirty e).World = e.World := by
  unfold decDirty; split <;> rfl

/-- Well-formedness needed to track one render item across frames: the
ring has length `R`, the item sits at list position `p`, the items' slot
indices are pairwise distinct (as `BuildRenderItems` assigns them), and the
item's slot index is in range in every ring slot's object buffer. -/
def ItemInv (R p : Nat) (e : RenderItem) (s : ShapesApp) : Prop :=
  s.mFrameResources.length = R ∧
  s.mAllRitems.get? p = some e ∧
  (s.mAllRitems.map RenderItem.ObjCBIndex).Nodup ∧
  ∀ k, k < R → e.ObjCBIndex < (slotObjectCB s k).length

/-- The tracking invariant survives a rendered frame, with the tracked
item's dirty counter stepped by `decDirty`. -/
theorem ItemInv_frameStep (R p : Nat) (e : RenderItem) (inp : FrameInput) (s : ShapesApp)
    (h : ItemInv R p e s) : ItemInv R p (decDirty e) (frameStep R inp s).1 := by
  obtain ⟨hlen, hp, hnd, hb⟩ := h
  refine ⟨?_, ?_, ?_, ?_⟩
  · rw [frameStep_ring_length]; exact hlen
  · rw [frameStep_items, List.get?_map, hp]; rfl
  · rw [frameStep_items, List.map_map]
    have hsame : s.mAllRitems.map (RenderItem.ObjCBIndex ∘ decDirty)
        = s.mAllRitems.map RenderItem.ObjCBIndex :=
      List.map_congr_left fun a _ => decDirty_ObjCBIndex a
    rw [hsame]; exact hnd
  · intro k hk
    rw [frameStep_slotObjectCB_length, decDirty_ObjCBIndex]
    exact hb k hk

/-- What one rendered frame leaves at the tracked item's record position
of ring slot `k`: the freshly published transpose of the item's world
matrix if `k` is the newly current slot and the item is dirty, the old
record otherwise. -/
theorem frameStep_objCB_at_index (R p : Nat) (e : RenderItem) (inp : FrameInput)
    (s : ShapesApp) (h : ItemInv R p e s) (k : Nat) (hk : k < R) :
    (slotObjectCB (frameStep R inp s).1 k).getD e.ObjCBIndex dObj
      = if k = (s.mCurrFrameResourceIndex + 1) % R ∧ 0 < e.NumFramesDirty
        then ⟨XMMatrixTranspose e.World⟩
        else (slotObjectCB s k).getD e.ObjCBIndex dObj := by
  obtain ⟨hlen, hp, hnd, hb⟩ := h
  by_cases hkc : k = (s.mCurrFrameResourceIndex + 1) % R
  · have hl : (s.mCurrFrameResourceIndex + 1) % R < s.mFrameResources.length := by
      rw [hlen]; exact hkc ▸ hk
    have hcb := updateObjectCBsItems_at_index ((s.mCurrFrameResourceIndex + 1) % R)
      s.mAllRitems (slotObjectCB s ((s.mCurrFrameResourceIndex + 1) % R)) p e hp hnd
      (hkc ▸ hb k hk)
    rw [slotObjectCB, hkc, frameStep_slot_cur R inp s hl]
    by_cases hd : 0 < e.NumFramesDirty
    · rw [if_pos ⟨rfl, hd⟩]
      rw [hcb, if_pos hd]
    · rw [if_neg (fun hx => hd hx.2)]
      rw [hcb, if_neg hd]
  · rw [if_neg (fun hx => hkc hx.1), slotObjectCB, frameStep_slot_other R inp s k hkc]
    rfl

/-- Once the tracked item's record holds the published transpose of its
world matrix in some ring slot, it still holds it after any further run of
frames: a later visit either rewrites the same value (item still dirty) or
leaves the position alone (item clean, and no other item shares the slot
index). -/
theorem runFrames_preserves_written (R p : Nat) (e : RenderItem) (inps : List FrameInput)
    (s : ShapesApp) (h : ItemInv R p e s) (k : Nat) (hk : k < R)
    (hv : (slotObjectCB s k).getD e.ObjCBIndex dObj = ⟨XMMatrixTranspose e.World⟩) :
    (slotObjectCB (runFrames R inps s).1 k).getD e.ObjCBIndex dObj
      = ⟨XMMatrixTranspose e.World⟩ := by
  induction inps generalizing s e with
  | nil => exact hv
  | cons inp rest ih =>
    have hstate : (runFrames R (inp :: rest) s).1 = (runFrames R rest (frameStep R inp s).1).1 := by
      simp [runFrames]
    rw [hstate]
    have hval : (slotObjectCB (frameStep R inp s).1 k).getD (decDirty e).ObjCBIndex dObj
        = ⟨XMMatrixTranspose (decDirty e).World⟩ := by
      rw [decDirty_ObjCBIndex, decDirty_World,
        frameStep_objCB_at_index R p e inp s ⟨h.1, h.2.1, h.2.2.1, h.2.2.2⟩ k hk]
      by_cases hx : k = (s.mCurrFrameResourceIndex + 1) % R ∧ 0 < e.NumFramesDirty
      · rw [if_pos hx]
      · rw [if_neg hx]; exact hv
    have := ih (decDirty e) (frameStep R inp s).1
      (ItemInv_frameStep R p e inp s h) hval
    rw [decDirty_ObjCBIndex, decDirty_World] at this
    exact this

/-- Starting the ring walk at any base slot, `R` consecutive advances visit
every ring slot: each residue below `R` is hit by some step. -/
theorem mod_shift_surj (R b : Nat) (hR : 0 < R) :
    ∀ m, m < R → ∃ j, j < R ∧ (b + j) % R = m := by
  intro m hm
  refine ⟨(m + R - b % R) % R, Nat.mod_lt _ hR, ?_⟩
  have hb : b % R < R := Nat.mod_lt _ hR
  have hble : b % R ≤ m + R := le_trans (Nat.le_of_lt hb) (Nat.le_add_left R m)
  rw [Nat.add_mod_mod, ← Nat.mod_add_mod, Nat.add_sub_cancel' hble,
    Nat.add_mod_right, Nat.mod_eq_of_lt hm]

/-- Dirty propagation: if the tracked item starts a run of `inps.length`
frames with a dirty count of at least that many frames, then after the run
each of the first `inps.length` slots the ring visits holds the published
transpose of the item's world matrix at the item's record position. -/
theorem runFrames_propagates (R p : Nat) (e : RenderItem) (inps : List FrameInput)
    (s : ShapesApp) (hR : 0 < R) (h : ItemInv R p e s)
    (hd : (inps.length : Int) ≤ e.NumFramesDirty) :
    ∀ j, j < inps.length →
      (slotObjectCB (runFrames R inps s).1 ((s.mCurrFrameResourceIndex + 1 + j) % R)).getD
          e.ObjCBIndex dObj = ⟨XMMatrixTranspose e.World⟩ := by
  induction inps generalizing s e with
  | nil => intro j hj; simp at hj
  | cons inp rest ih =>
    intro j hj
    have hpos : 0 < e.NumFramesDirty := by
      have hlen : ((rest.length + 1 : Nat) : Int) ≤ e.NumFramesDirty := by
        simpa using hd
      omega
    have hstate : (runFrames R (inp :: rest) s).1
        = (runFrames R rest (frameStep R inp s).1).1 := by
      simp [runFrames]
    have hinv' := ItemInv_frameStep R p e inp s h
    cases j with
    | zero =>
      rw [hstate]
      have hkR : (s.mCurrFrameResourceIndex + 1) % R < R := Nat.mod_lt _ hR
      have hval : (slotObjectCB (frameStep R inp s).1 ((s.mCurrFrameResourceIndex + 1) % R)).getD
          (decDirty e).ObjCBIndex dObj = ⟨XMMatrixTranspose (decDirty e).World⟩ := by
        rw [decDirty_ObjCBIndex, decDirty_World,
          frameStep_objCB_at_index R p e inp s h ((s.mCurrFrameResourceIndex + 1) % R) hkR,
          if_pos ⟨rfl, hpos⟩]
      have hkeep := runFrames_preserves_written R p (decDirty e) rest (frameStep R inp s).1
        hinv' ((s.mCurrFrameResourceIndex + 1) % R) hkR hval
      rw [decDirty_ObjCBIndex, decDirty_World] at hkeep
      simpa using hkeep
    | succ jj =>
      rw [hstate]
      have hd' : ((rest.length : Nat) : Int) ≤ (decDirty e).NumFramesDirty := by
        have hlen : ((rest.length + 1 : Nat) : Int) ≤ e.NumFramesDirty := by
          simpa using hd
        unfold decDirty
        rw [if_pos hpos]
        push_cast at hlen ⊢
        omega
      have hrec := ih (decDirty e) (frameStep R inp s).1 hinv' hd' jj
        (by simpa using Nat.lt_of_succ_lt_succ hj)
      rw [decDirty_ObjCBIndex, decDirty_World, frameStep_index] at hrec
      have harith : ((s.mCurrFrameResourceIndex + 1) % R + 1 + jj) % R
          = (s.mCurrFrameResourceIndex + 1 + (jj + 1)) % R := by
        rw [Nat.add_assoc, Nat.mod_add_mod, Nat.add_assoc]
        rw [Nat.add_comm 1 jj, ← Nat.add_assoc]
      rw [harith] at hrec
      exact hrec

/-- The event trace of `Update`: the optional fence wait (guarded exactly
by the source's condition on the reused slot's watermark), the object
writes of the item walk, then the single pass write at record index 0. -/
theorem Update_events (R : Nat) (inp : FrameInput) (s : ShapesApp) :
    (Update R inp s).2
      = (if reusedSlotFence R s ≠ 0 ∧ inp.completedFenceValue < reusedSlotFence R s
          then [Ev.waitForFence (reusedSlotFence R s)] else [])
        ++ (updateObjectCBsItems ((s.mCurrFrameResourceIndex + 1) % R) s.mAllRitems
              (slotObjectCB s ((s.mCurrFrameResourceIndex + 1) % R))).2.2
        ++ [Ev.passWrite ((s.mCurrFrameResourceIndex + 1) % R) 0] := by
  simp only [Update, UpdateObjectCBs, UpdateMainPassCB, OnKeyboardInput, UpdateCamera,
    advanceFrameResource, currFrameResource, reusedSlotFence, slotObjectCB]

/-- Exactly when the wait fires: a fence-wait event occurs in `Update`'s
trace precisely when the reused slot's watermark is nonzero and the
observed completed value is still below it, and then its target is that
watermark. -/
theorem Update_wait_mem (R : Nat) (inp : FrameInput) (s : ShapesApp) (t : Nat) :
    Ev.waitForFence t ∈ (Update R inp s).2
      ↔ reusedSlotFence R s ≠ 0 ∧ inp.completedFenceValue < reusedSlotFence R s
          ∧ t = reusedSlotFence R s := by
  rw [Update_events]
  constructor
  · intro hmem
    rcases List.mem_append.mp hmem with hmem1 | hlast
    · rcases List.mem_append.mp hmem1 with hwait | hobj
      · by_cases hc : reusedSlotFence R s ≠ 0 ∧ inp.completedFenceValue < reusedSlotFence R s
        · rw [if_pos hc] at hwait
          have ht : Ev.waitForFence t = Ev.waitForFence (reusedSlotFence R s) := by
            simpa using hwait
          exact ⟨hc.1, hc.2, by injection ht⟩
        · rw [if_neg hc] at hwait
          simp at hwait
      · exfalso
        obtain ⟨i, hi⟩ := updateObjectCBsItems_events _ _ _ _ hobj
        exact Ev.noConfusion hi
    · exfalso
      have : Ev.waitForFence t = Ev.passWrite ((s.mCurrFrameResourceIndex + 1) % R) 0 := by
        simpa using hlast
      exact Ev.noConfusion this
  · rintro ⟨h1, h2, h3⟩
    subst h3
    rw [if_pos ⟨h1, h2⟩]
    exact List.mem_append_left _ (List.mem_append_left _ (List.mem_cons_self _ _))

/-- The fence signal values occurring in an event trace, in order. -/
def signalValues (evs : List Ev) : List Nat :=
  evs.filterMap fun ev =>
    match ev with
    | Ev.signal v => some v
    | _ => none

/-- `Update` enqueues no fence signal. -/
theorem Update_signalValues (R : Nat) (inp : FrameInput) (s : ShapesApp) :
    signalValues (Update R inp s).2 = [] := by
  rw [signalValues, List.filterMap_eq_nil]
  intro ev hev
  rw [Update_events] at hev
  rcases List.mem_append.mp hev with h1 | h2
  · rcases List.mem_append.mp h1 with hw | ho
    · by_cases hc : reusedSlotFence R s ≠ 0 ∧ inp.completedFenceValue < reusedSlotFence R s
      · rw [if_pos hc] at hw
        have hev2 : ev = Ev.waitForFence (reusedSlotFence R s) := by simpa using hw
        subst hev2; rfl
      · rw [if_neg hc] at hw
        simp at hw
    · obtain ⟨i, hi⟩ := updateObjectCBsItems_events _ _ _ ev ho
      subst hi; rfl
  · have hev2 : ev = Ev.passWrite ((s.mCurrFrameResourceIndex + 1) % R) 0 := by
      simpa using h2
    subst hev2; rfl

/-- A rendered frame signals exactly once, with the incremented counter. -/
theorem frameStep_signalValues (R : Nat) (inp : FrameInput) (s : ShapesApp) :
    signalValues (frameStep R inp s).2 = [s.mCurrentFence + 1] := by
  rw [signalValues, frameStep_events, List.filterMap_append]
  rw [← signalValues, Update_signalValues]
  rfl

/-- The fence counter after a run of frames: one increment per frame. -/
theorem runFrames_mCurrentFence (R : Nat) (inps : List FrameInput) (s : ShapesApp) :
    (runFrames R inps s).1.mCurrentFence = s.mCurrentFence + inps.length := by
  induction inps generalizing s with
  | nil => rfl
  | cons inp rest ih =>
    have hstate : (runFrames R (inp :: rest) s).1
        = (runFrames R rest (frameStep R inp s).1).1 := by
      simp [runFrames]
    rw [hstate, ih, frameStep_mCurrentFence]
    simp [Nat.add_assoc, Nat.add_comm 1 rest.length]

/-- The signal values of a run of frames are the consecutive integers
starting one past the initial fence counter, one per submitted frame. -/
theorem runFrames_signalValues (R : Nat) (inps : List FrameInput) (s : ShapesApp) :
    signalValues (runFrames R inps s).2
      = (List.range inps.length).map (fun k => s.mCurrentFence + k + 1) := by
  induction inps generalizing s with
  | nil => rfl
  | cons inp rest ih =>
    have hsplit : (runFrames R (inp :: rest) s).2
        = (frameStep R inp s).2 ++ (runFrames R rest (frameStep R inp s).1).2 := by
      simp [runFrames]
    rw [hsplit, signalValues, List.filterMap_append, ← signalValues, ← signalValues,
      frameStep_signalValues, ih, frameStep_mCurrentFence]
    simp only [List.length_cons]
    rw [List.range_succ_eq_map, List.map_cons, List.map_map]
    simp only [List.singleton_append, List.cons_append, List.nil_append]
    refine congrArg₂ List.cons (by omega) ?_
    exact List.map_congr_left fun a _ => by
      simp only [Function.comp_apply]
      omega

/-- How the tracked item's record evolves over a run of frames whose
length does not exceed its dirty count: the dirty count drops by exactly
one per frame and every other field is untouched. -/
theorem runFrames_item_dirty (R p : Nat) (e : RenderItem) (inps : List FrameInput)
    (s : ShapesApp) (hp : s.mAllRitems.get? p = some e)
    (hd : (inps.length : Int) ≤ e.NumFramesDirty) :
    (runFrames R inps s).1.mAllRitems.get? p
      = some { e with NumFramesDirty := e.NumFramesDirty - inps.length } := by
  induction inps generalizing s e with
  | nil =>
    simpa using hp
  | cons inp rest ih =>
    have hpos : 0 < e.NumFramesDirty := by
      have hlen : ((rest.length + 1 : Nat) : Int) ≤ e.NumFramesDirty := by simpa using hd
      omega
    have hstate : (runFrames R (inp :: rest) s).1
        = (runFrames R rest (frameStep R inp s).1).1 := by
      simp [runFrames]
    have hp' : (frameStep R inp s).1.mAllRitems.get? p = some (decDirty e) := by
      rw [frameStep_items, List.get?_map, hp]; rfl
    have hde : decDirty e = { e with NumFramesDirty := e.NumFramesDirty - 1 } := by
      rw [decDirty, if_pos hpos]
    have hd' : ((rest.length : Nat) : Int) ≤ (decDirty e).NumFramesDirty := by
      rw [hde]
      show ((rest.length : Nat) : Int) ≤ e.NumFramesDirty - 1
      have hlen : ((rest.length + 1 : Nat) : Int) ≤ e.NumFramesDirty := by simpa using hd
      push_cast at hlen ⊢
      omega
    rw [hstate, ih (decDirty e) _ hp' hd', hde]
    have hval : e.NumFramesDirty - 1 - (rest.length : Int)
        = e.NumFramesDirty - (((inp :: rest).length : Nat) : Int) := by
      simp only [List.length_cons]
      push_cast
      omega
    simp only [hval]

/-- `decDirty` keeps the dirty count within `[0, Rz]`: it decrements only
strictly positive counts and never goes below zero. -/
theorem decDirty_bounds (Rz : Int) (e : RenderItem)
    (h : 0 ≤ e.NumFramesDirty ∧ e.NumFramesDirty ≤ Rz) :
    0 ≤ (decDirty e).NumFramesDirty ∧ (decDirty e).NumFramesDirty ≤ Rz := by
  rw [decDirty]
  split
  · constructor <;> simp <;> omega
  · exact h

/-- Items with clean counters are left exactly as they are. -/
theorem decDirty_of_not_dirty (e : RenderItem) (h : ¬ 0 < e.NumFramesDirty) :
    decDirty e = e := by
  rw [decDirty, if_neg h]

/-- The dirty-count range invariant survives any run of frames. -/
theorem runFrames_dirty_bounds (R : Nat) (Rz : Int) (inps : List FrameInput) (s : ShapesApp)
    (h : ∀ e ∈ s.mAllRitems, 0 ≤ e.NumFramesDirty ∧ e.NumFramesDirty ≤ Rz) :
    ∀ e ∈ (runFrames R inps s).1.mAllRitems,
      0 ≤ e.NumFramesDirty ∧ e.NumFramesDirty ≤ Rz := by
  induction inps generalizing s with
  | nil => exact h
  | cons inp rest ih =>
    have hstate : (runFrames R (inp :: rest) s).1
        = (runFrames R rest (frameStep R inp s).1).1 := by
      simp [runFrames]
    rw [hstate]
    refine ih (frameStep R inp s).1 ?_
    intro e he
    rw [frameStep_items] at he
    obtain ⟨e0, he0, rfl⟩ := List.mem_map.mp he
    exact decDirty_bounds Rz e0 (h e0 he0)

/-- The pure index map of one ring advance. -/
def ringNext (R : Nat) : Nat → Nat := fun i => (i + 1) % R

/-- Iterating `advanceFrameResource` acts on the index as the iterated
pure index map (and touches nothing else, so the index determines it). -/
theorem iterate_advance_index (R n : Nat) (s : ShapesApp) :
    (((advanceFrameResource R)^[n]) s).mCurrFrameResourceIndex
      = (ringNext R)^[n] s.mCurrFrameResourceIndex := by
  induction n generalizing s with
  | zero => rfl
  | succ m ih =>
    rw [Function.iterate_succ_apply, Function.iterate_succ_apply, ih]
    rfl

/-- A run of frames advances the ring index exactly once per frame. -/
theorem runFrames_index (R : Nat) (inps : List FrameInput) (s : ShapesApp) :
    (runFrames R inps s).1.mCurrFrameResourceIndex
      = (ringNext R)^[inps.length] s.mCurrFrameResourceIndex := by
  induction inps generalizing s with
  | nil => rfl
  | cons inp rest ih =>
    have hstate : (runFrames R (inp :: rest) s).1
        = (runFrames R rest (frameStep R inp s).1).1 := by
      simp [runFrames]
    rw [hstate, ih, frameStep_index, List.length_cons, Function.iterate_succ_apply]
    rfl

/-- Iterating the pure index map from slot 0 lands on `n % R`. -/
theorem ringNext_iterate_zero (R n : Nat) : (ringNext R)^[n] 0 = n % R := by
  induction n with
  | zero => simp
  | succ m ih =>
    rw [Function.iterate_succ_apply', ih, ringNext, Nat.mod_add_mod]

/-- `Update` never enqueues command lists and never signals: submission is
`Draw`'s business. -/
theorem Update_no_submission (R : Nat) (inp : FrameInput) (s : ShapesApp) :
    ∀ ev ∈ (Update R inp s).2,
      ev ≠ Ev.executeCommandLists ∧ ∀ w, ev ≠ Ev.signal w := by
  intro ev hev
  rw [Update_events] at hev
  rcases List.mem_append.mp hev with h1 | h2
  · rcases List.mem_append.mp h1 with hw | ho
    · by_cases hc : reusedSlotFence R s ≠ 0 ∧ inp.completedFenceValue < reusedSlotFence R s
      · rw [if_pos hc] at hw
        have hev2 : ev = Ev.waitForFence (reusedSlotFence R s) := by simpa using hw
        subst hev2
        exact ⟨Ev.noConfusion, fun w => Ev.noConfusion⟩
      · rw [if_neg hc] at hw
        simp at hw
    · obtain ⟨i, hi⟩ := updateObjectCBsItems_events _ _ _ ev ho
      subst hi
      exact ⟨Ev.noConfusion, fun w => Ev.noConfusion⟩
  · have hev2 : ev = Ev.passWrite ((s.mCurrFrameResourceIndex + 1) % R) 0 := by
      simpa using h2
    subst hev2
    exact ⟨Ev.noConfusion, fun w => Ev.noConfusion⟩

/-- Recognizer for pass-buffer write events. -/
def isPassWrite : Ev → Bool := fun ev =>
  match ev with
  | Ev.passWrite _ _ => true
  | _ => false

/-- The pass-buffer writes of one `Update`: exactly one, on the newly
current slot, at record index 0, with no condition on the state. -/
theorem Update_passWrites (R : Nat) (inp : FrameInput) (s : ShapesApp) :
    (Update R inp s).2.filter isPassWrite
      = [Ev.passWrite ((s.mCurrFrameResourceIndex + 1) % R) 0] := by
  rw [Update_events, List.filter_append, List.filter_append]
  have hobj : (updateObjectCBsItems ((s.mCurrFrameResourceIndex + 1) % R) s.mAllRitems
      (slotObjectCB s ((s.mCurrFrameResourceIndex + 1) % R))).2.2.filter isPassWrite = [] := by
    rw [List.filter_eq_nil]
    intro ev hev
    obtain ⟨i, hi⟩ := updateObjectCBsItems_events _ _ _ ev hev
    subst hi
    simp [isPassWrite]
  have hwait : (if reusedSlotFence R s ≠ 0 ∧ inp.completedFenceValue < reusedSlotFence R s
      then [Ev.waitForFence (reusedSlotFence R s)] else []).filter isPassWrite = [] := by
    by_cases hc : reusedSlotFence R s ≠ 0 ∧ inp.completedFenceValue < reusedSlotFence R s
    · rw [if_pos hc]; rfl
    · rw [if_neg hc]; rfl
  rw [hobj, hwait]
  rfl

/-- The state effect of `UpdateMainPassCB` on the current slot's pass
buffer: exactly the single write of the recomputed record at index 0. -/
theorem UpdateMainPassCB_passCB (gt : GameTimer) (s : ShapesApp) :
    (currFrameResource (UpdateMainPassCB gt s).1).PassCB
      = (currFrameResource s).PassCB.set 0 (computeMainPassCB gt s) := by
  by_cases hl : s.mCurrFrameResourceIndex < s.mFrameResources.length
  · simp only [UpdateMainPassCB, currFrameResource]
    rw [getD_set_self _ _ _ _ hl]
  · simp only [UpdateMainPassCB, currFrameResource]
    rw [List.set_eq_of_length_le (Nat.le_of_not_lt hl),
      List.getD_eq_default _ _ (Nat.le_of_not_lt hl)]
    rfl

/-- `UpdateMainPassCB` stores the recomputed record in the `mMainPassCB`
member as well. -/
theorem UpdateMainPassCB_member (gt : GameTimer) (s : ShapesApp) :
    (UpdateMainPassCB gt s).1.mMainPassCB = computeMainPassCB gt s := rfl

/-- `UpdateMainPassCB` emits exactly one pass write, on the current slot,
at record index 0. -/
theorem UpdateMainPassCB_events (gt : GameTimer) (s : ShapesApp) :
    (UpdateMainPassCB gt s).2 = [Ev.passWrite s.mCurrFrameResourceIndex 0] := rfl

/-- `UpdateMainPassCB` touches no ring slot other than the current one. -/
theorem UpdateMainPassCB_other_slots (gt : GameTimer) (s : ShapesApp) (k : Nat)
    (hk : k ≠ s.mCurrFrameResourceIndex) :
    (UpdateMainPassCB gt s).1.mFrameResources.getD k dFR
      = s.mFrameResources.getD k dFR := by
  simp only [UpdateMainPassCB]
  exact getD_set_ne _ _ _ _ _ (Ne.symm hk)

/-- Modelled from the spec and the source comment on
`RenderItem::NumFramesDirty` (source lines 40–44: when object data is
modified, `NumFramesDirty` must be re-set to `gNumFrameResources` so that
every frame resource receives the update).  No call site in the source
mutates a world matrix after the build phase, so the mutation protocol
itself is what is modelled here: the latest transform wins and the dirty
count is re-set to the ring length, never accumulated. -/
def mutateWorld (R : Nat) (w : Mat4) (e : RenderItem) : RenderItem :=
  { e with World := w, NumFramesDirty := (R : Int) }

/-- The error taxonomy entry for an over-capacity buffer request
(spec §7: **ResourceExhausted**). -/
inductive ProvisionError where
  | resourceExhausted
deriving DecidableEq

/-- Default scene-pass record (the zero-initialized contents of a freshly
provisioned pass buffer). -/
def dPass : PassConstants :=
  { View := MatExpr.stored Identity4x4
    InvView := MatExpr.stored Identity4x4
    Proj := MatExpr.stored Identity4x4
    InvProj := MatExpr.stored Identity4x4
    ViewProj := MatExpr.stored Identity4x4
    InvViewProj := MatExpr.stored Identity4x4
    EyePosW := ⟨0, 0, 0⟩
    RenderTargetSize := (0, 0)
    InvRenderTargetSize := (0, 0)
    NearZ := 0
    FarZ := 0
    TotalTime := 0
    DeltaTime := 0 }

/-- Modelled from the spec (`FrameResource.h` and `UploadBuffer.h` are not
under `src/`): constructing one frame slot provisions `passCount` pass
records and requests `objectCount` object records from an upload buffer
whose preallocated record capacity is fixed at ring-construction time.  A
request beyond the capacity is detected here, at provisioning time, and
reported as the fatal configuration error **ResourceExhausted**; it is not
retried. -/
def provisionFrameResource (capacity passCount objectCount : Nat) :
    Except ProvisionError FrameResource :=
  if capacity < objectCount then Except.error ProvisionError.resourceExhausted
  else Except.ok
    { ObjectCB := List.replicate capacity dObj
      PassCB := List.replicate passCount dPass
      Fence := 0 }

/-- `ShapesApp::BuildFrameResources`: one slot per ring position, each
provisioned with one pass record and one object record per render item
(the source passes `1` and `mAllRitems.size()`, so the preallocated
capacity is chosen from the item count at ring-construction time, before
any update pass runs). -/
def BuildFrameResources (R capacity itemCount : Nat) :
    Except ProvisionError (List FrameResource) :=
  match R with
  | 0 => Except.ok []
  | n + 1 =>
    match provisionFrameResource capacity 1 itemCount with
    | Except.error err => Except.error err
    | Except.ok fr =>
      match BuildFrameResources n capacity itemCount with
      | Except.error err => Except.error err
      | Except.ok rest => Except.ok (fr :: rest)

/-- An over-capacity item count makes ring construction fail fatally. -/
theorem BuildFrameResources_error (R capacity itemCount : Nat) (hR : 0 < R)
    (h : capacity < itemCount) :
    BuildFrameResources R capacity itemCount
      = Except.error ProvisionError.resourceExhausted := by
  cases R with
  | zero => exact absurd hR (by simp)
  | succ n =>
    rw [BuildFrameResources, provisionFrameResource, if_pos h]

/-- A sufficient capacity makes ring construction succeed, with every
slot's object buffer holding exactly the preallocated record count. -/
theorem BuildFrameResources_ok (R capacity itemCount : Nat) (h : itemCount ≤ capacity) :
    BuildFrameResources R capacity itemCount
      = Except.ok (List.replicate R
          (FrameResource.mk (List.replicate capacity dObj) (List.replicate 1 dPass) 0)) := by
  induction R with
  | zero => rfl
  | succ n ih =>
    rw [BuildFrameResources, provisionFrameResource, if_neg (Nat.not_lt.mpr h), ih]
    rfl

/-- `UpdateObjectCBs` applies exactly the per-item dirty step to the item
list. -/
theorem UpdateObjectCBs_items (s : ShapesApp) :
    (UpdateObjectCBs s).1.mAllRitems = s.mAllRitems.map decDirty := by
  simp [UpdateObjectCBs, updateObjectCBsItems_items]

/-- `UpdateObjectCBs` touches no ring slot other than the current one. -/
theorem UpdateObjectCBs_other_slots (s : ShapesApp) (k : Nat)
    (hk : k ≠ s.mCurrFrameResourceIndex) :
    (UpdateObjectCBs s).1.mFrameResources.getD k dFR = s.mFrameResources.getD k dFR := by
  simp only [UpdateObjectCBs]
  exact getD_set_ne _ _ _ _ _ (Ne.symm hk)

/-- With the current index in range, `UpdateObjectCBs` replaces the
current slot by the same slot with the walked object buffer. -/
theorem UpdateObjectCBs_curr_slot (s : ShapesApp)
    (hl : s.mCurrFrameResourceIndex < s.mFrameResources.length) :
    currFrameResource (UpdateObjectCBs s).1
      = { currFrameResource s with
          ObjectCB := (updateObjectCBsItems s.mCurrFrameResourceIndex s.mAllRitems
            (currFrameResource s).ObjectCB).2.1 } := by
  simp only [UpdateObjectCBs, currFrameResource]
  rw [getD_set_self _ _ _ _ hl]

/-- With the current index out of range, the buffer write is vacuous. -/
theorem UpdateObjectCBs_frames_oob (s : ShapesApp)
    (h : s.mFrameResources.length ≤ s.mCurrFrameResourceIndex) :
    (UpdateObjectCBs s).1.mFrameResources = s.mFrameResources := by
  simp only [UpdateObjectCBs]
  exact List.set_eq_of_length_le h

/-- The current slot's pass buffer is untouched by the object pass. -/
theorem UpdateObjectCBs_passCB (s : ShapesApp) :
    (currFrameResource (UpdateObjectCBs s).1).PassCB = (currFrameResource s).PassCB := by
  by_cases hl : s.mCurrFrameResourceIndex < s.mFrameResources.length
  · rw [UpdateObjectCBs_curr_slot s hl]
  · rw [currFrameResource, UpdateObjectCBs_frames_oob s (Nat.le_of_not_lt hl)]
    rfl

/-- The current slot's fence watermark is untouched by the object pass. -/
theorem UpdateObjectCBs_slotFence (s : ShapesApp) :
    (currFrameResource (UpdateObjectCBs s).1).Fence = (currFrameResource s).Fence := by
  by_cases hl : s.mCurrFrameResourceIndex < s.mFrameResources.length
  · rw [UpdateObjectCBs_curr_slot s hl]
  · rw [currFrameResource, UpdateObjectCBs_frames_oob s (Nat.le_of_not_lt hl)]
    rfl

/-- Positions of the current slot's object buffer that belong to no dirty
item are untouched by the object pass. -/
theorem UpdateObjectCBs_clean_positions (s : ShapesApp) (i : Nat) (d : ObjectConstants)
    (h : ∀ e ∈ s.mAllRitems, 0 < e.NumFramesDirty → e.ObjCBIndex ≠ i) :
    (slotObjectCB (UpdateObjectCBs s).1 s.mCurrFrameResourceIndex).getD i d
      = (slotObjectCB s s.mCurrFrameResourceIndex).getD i d := by
  by_cases hl : s.mCurrFrameResourceIndex < s.mFrameResources.length
  · show (currFrameResource (UpdateObjectCBs s).1).ObjectCB.getD i d
      = (slotObjectCB s s.mCurrFrameResourceIndex).getD i d
    rw [UpdateObjectCBs_curr_slot s hl]
    exact updateObjectCBsItems_untouched _ _ _ _ _ h
  · rw [slotObjectCB, UpdateObjectCBs_frames_oob s (Nat.le_of_not_lt hl)]
    rfl

/-- `decDirty` changes no field except the dirty count. -/
theorem decDirty_other_fields (e : RenderItem) :
    (decDirty e).World = e.World
    ∧ (decDirty e).ObjCBIndex = e.ObjCBIndex
    ∧ (decDirty e).Geo = e.Geo
    ∧ (decDirty e).PrimitiveType = e.PrimitiveType
    ∧ (decDirty e).IndexCount = e.IndexCount
    ∧ (decDirty e).StartIndexLocation = e.StartIndexLocation
    ∧ (decDirty e).BaseVertexLocation = e.BaseVertexLocation := by
  by_cases h : 0 < e.NumFramesDirty
  · rw [decDirty, if_pos h]
    exact ⟨rfl, rfl, rfl, rfl, rfl, rfl, rfl⟩
  · rw [decDirty, if_neg h]
    exact ⟨rfl, rfl, rfl, rfl, rfl, rfl, rfl⟩

/-- An item entering a run of `R` frames with dirty count at least `R` has
its published transform present in every ring slot afterwards. -/
theorem full_propagation (R : Nat) (hR : 0 < R) (s : ShapesApp) (inps : List FrameInput)
    (p : Nat) (e : RenderItem) (hinv : ItemInv R p e s)
    (hd : (R : Int) ≤ e.NumFramesDirty) (hlen : inps.length = R) :
    ∀ k, k < R → (slotObjectCB (runFrames R inps s).1 k).getD e.ObjCBIndex dObj
      = ⟨XMMatrixTranspose e.World⟩ := by
  intro k hk
  obtain ⟨j, hj, hjk⟩ := mod_shift_surj R (s.mCurrFrameResourceIndex + 1) hR k hk
  have h := runFrames_propagates R p e inps s hR hinv
    (by rw [hlen]; exact hd) j (by rw [hlen]; exact hj)
  rw [hjk] at h
  exact h

/-- A concrete world matrix distinct from the identity, used to observe
propagation in the sample runs below. -/
def wSample : Mat4 := fun i j => (((i : Nat) * 4 + (j : Nat) : Nat) : Flt)

/-- A dirty sample render item occupying object-buffer record 0. -/
def sampleItem0 : RenderItem :=
  { World := wSample, NumFramesDirty := 3, ObjCBIndex := 0 }

/-- A clean sample render item occupying object-buffer record 1. -/
def sampleItem1 : RenderItem :=
  { World := Identity4x4, NumFramesDirty := 0, ObjCBIndex := 1 }

/-- A partially propagated sample item (dirty count strictly between 0 and
the ring length). -/
def sampleItemHalf : RenderItem :=
  { World := Identity4x4, NumFramesDirty := 1, ObjCBIndex := 0 }

/-- A freshly provisioned sample ring slot with two object records. -/
def sampleSlot : FrameResource :=
  { ObjectCB := [dObj, dObj], PassCB := [dPass], Fence := 0 }

/-- A sample application state with a full ring of three slots and two
render items, as after initialization. -/
def sampleApp : ShapesApp :=
  { mFrameResources := [sampleSlot, sampleSlot, sampleSlot]
    mCurrFrameResourceIndex := 0
    mAllRitems := [sampleItem0, sampleItem1]
    mMainPassCB := dPass
    mCurrentFence := 0
    mCurrBackBuffer := 0
    mView := MatExpr.stored Identity4x4
    mProj := MatExpr.stored Identity4x4
    mEyePos := ⟨0, 0, 0⟩
    mTheta := 0
    mPhi := 0
    mRadius := 5
    mClientWidth := 800
    mClientHeight := 600
    mIsWireframe := false }

/-- The sample state after a second mutation of the first item while its
dirty count was strictly between 0 and the ring length. -/
def sampleAppMut : ShapesApp :=
  { sampleApp with mAllRitems := [mutateWorld 3 wSample sampleItemHalf, sampleItem1] }

/-- A sample state whose about-to-be-reused slot carries watermark 5. -/
def sampleAppWait : ShapesApp :=
  { sampleApp with
    mFrameResources := [sampleSlot, { sampleSlot with Fence := 5 }, sampleSlot] }

/-- A quiet per-frame input: no key held, completed fence value 0. -/
def sampleInput : FrameInput :=
  { key1Down := false, completedFenceValue := 0, gt := ⟨0, 0⟩ }

/-- A per-frame input observing a lagging GPU: completed fence value 3. -/
def sampleInputLag : FrameInput :=
  { key1Down := false, completedFenceValue := 3, gt := ⟨0, 0⟩ }

/-- C1: in the per-frame update, the blocking wait on the fence is invoked
if and only if the about-to-be-reused slot's fence watermark is nonzero and
the completed fence value observed from the GPU is strictly less than that
watermark; in every other case the frame proceeds with no wait, and any
wait that does occur targets exactly that watermark. -/
theorem update_wait_iff_watermark_pending (R : Nat) (inp : FrameInput) (s : ShapesApp) :
    ((∃ t, Ev.waitForFence t ∈ (Update R inp s).2)
      ↔ reusedSlotFence R s ≠ 0 ∧ inp.completedFenceValue < reusedSlotFence R s)
    ∧ ∀ t, Ev.waitForFence t ∈ (Update R inp s).2 → t = reusedSlotFence R s := by
  constructor
  · constructor
    · rintro ⟨t, ht⟩
      have h := (Update_wait_mem R inp s t).mp ht
      exact ⟨h.1, h.2.1⟩
    · intro hc
      exact ⟨reusedSlotFence R s, (Update_wait_mem R inp s _).mpr ⟨hc.1, hc.2, rfl⟩⟩
  · intro t ht
    exact ((Update_wait_mem R inp s t).mp ht).2.2

/-- Witness for C1: with the reused slot's watermark at 5 and the observed
completed value at 3 the wait fires; with watermark 0 it does not. -/
theorem update_wait_iff_watermark_pending_witness :
    (∃ t, Ev.waitForFence t ∈ (Update 3 sampleInputLag sampleAppWait).2)
    ∧ ¬ (∃ t, Ev.waitForFence t ∈ (Update 3 sampleInput sampleApp).2) := by
  constructor
  · exact (update_wait_iff_watermark_pending 3 sampleInputLag sampleAppWait).1.mpr (by decide)
  · intro hx
    have h := (update_wait_iff_watermark_pending 3 sampleInput sampleApp).1.mp hx
    exact absurd h (by decide)

/-- C2: the per-object update pass writes, for every drawable item with
positive dirty count, the transpose of the item's world matrix into the
current slot's object buffer at its slot index and decrements the dirty
count by exactly one; items with dirty count zero are not written (their
records are untouched); consequently, for ring length `R`, an item mutated
once (dirty count set to `R`) has its updated transform present in all `R`
slots' buffers after `R` subsequent frames. -/
theorem objectCB_write_decrement_and_full_propagation (R : Nat) (hR : 0 < R) :
    (∀ c items buf, (updateObjectCBsItems c items buf).1 = items.map decDirty)
    ∧ (∀ c (items : List RenderItem) (buf : List ObjectConstants) p e,
        items.get? p = some e →
        (items.map RenderItem.ObjCBIndex).Nodup → e.ObjCBIndex < buf.length →
        (updateObjectCBsItems c items buf).2.1.getD e.ObjCBIndex dObj
          = if 0 < e.NumFramesDirty then ⟨XMMatrixTranspose e.World⟩
            else buf.getD e.ObjCBIndex dObj)
    ∧ (∀ c (items : List RenderItem) buf i d,
        (∀ e ∈ items, 0 < e.NumFramesDirty → e.ObjCBIndex ≠ i) →
        (updateObjectCBsItems c items buf).2.1.getD i d = buf.getD i d)
    ∧ (∀ s inps p e, ItemInv R p e s → e.NumFramesDirty = (R : Int) →
        inps.length = R →
        ∀ k, k < R →
          (slotObjectCB (runFrames R inps s).1 k).getD e.ObjCBIndex dObj
            = ⟨XMMatrixTranspose e.World⟩) := by
  refine ⟨updateObjectCBsItems_items, updateObjectCBsItems_at_index,
    updateObjectCBsItems_untouched, ?_⟩
  intro s inps p e hinv hd hlen k hk
  exact full_propagation R hR s inps p e hinv (by rw [hd]) hlen k hk

/-- Witness for C2: after three frames from the sample state, record 0 of
every one of the three slots' object buffers holds the transpose of the
mutated item's world matrix. -/
theorem objectCB_write_decrement_and_full_propagation_witness :
    0 < 3
    ∧ ∀ k, k < 3 →
        (slotObjectCB (runFrames 3 [sampleInput, sampleInput, sampleInput] sampleApp).1 k).getD
            0 dObj = ⟨XMMatrixTranspose wSample⟩ := by
  refine ⟨by decide, ?_⟩
  have h := (objectCB_write_decrement_and_full_propagation 3 (by decide)).2.2.2
    sampleApp [sampleInput, sampleInput, sampleInput] 0 sampleItem0
    ⟨by decide, by decide, by decide, by decide⟩ (by decide) rfl
  exact h

/-- C3: the fence values stamped on the current slot are strictly
increasing by exactly 1 per submitted frame (the trace's signal values are
the consecutive integers following the initial counter), and the counter is
only ever incremented, never decremented or reused. -/
theorem fence_values_strictly_increase_by_one (R : Nat) (inps : List FrameInput)
    (s : ShapesApp) :
    (signalValues (runFrames R inps s).2
        = (List.range inps.length).map (fun k => s.mCurrentFence + k + 1))
    ∧ ((runFrames R inps s).1.mCurrentFence = s.mCurrentFence + inps.length)
    ∧ (∀ (inp : FrameInput) (s' : ShapesApp),
        (s'.mCurrFrameResourceIndex + 1) % R < s'.mFrameResources.length →
        ((frameStep R inp s').1.mFrameResources.getD
            ((s'.mCurrFrameResourceIndex + 1) % R) dFR).Fence = s'.mCurrentFence + 1) := by
  refine ⟨runFrames_signalValues R inps s, runFrames_mCurrentFence R inps s, ?_⟩
  intro inp s' hl
  rw [frameStep_slot_cur R inp s' hl]

/-- Witness for C3: two frames from the sample state signal values 1 then
2, and the first frame stamps watermark 1 on slot 1. -/
theorem fence_values_strictly_increase_by_one_witness :
    (signalValues (runFrames 3 [sampleInput, sampleInput] sampleApp).2
        = (List.range 2).map (fun k => 0 + k + 1))
    ∧ ((frameStep 3 sampleInput sampleApp).1.mFrameResources.getD 1 dFR).Fence = 1 := by
  have h := fence_values_strictly_increase_by_one 3 [sampleInput, sampleInput] sampleApp
  exact ⟨h.1, h.2.2 sampleInput sampleApp (by decide)⟩

/-- C4: for every `N ≥ 0` and ring length `R`, after `N` frame advances
starting at index 0 the current frame-resource index equals `N mod R`;
each advance moves the index to `(current + 1) mod R` with no other effect
and no error condition, and the per-frame loop advances once per frame. -/
theorem ring_index_advances_mod_ringLength (R N : Nat) (s : ShapesApp)
    (h0 : s.mCurrFrameResourceIndex = 0) :
    ((((advanceFrameResource R)^[N]) s).mCurrFrameResourceIndex = N % R)
    ∧ (∀ s' : ShapesApp, advanceFrameResource R s'
        = { s' with mCurrFrameResourceIndex := (s'.mCurrFrameResourceIndex + 1) % R })
    ∧ (∀ inps : List FrameInput, inps.length = N →
        (runFrames R inps s).1.mCurrFrameResourceIndex = N % R) := by
  refine ⟨?_, fun s' => rfl, ?_⟩
  · rw [iterate_advance_index, h0, ringNext_iterate_zero]
  · intro inps hlen
    rw [runFrames_index, hlen, h0, ringNext_iterate_zero]

/-- Witness for C4: five advances from index 0 with ring length 3 land on
index `5 % 3 = 2`, as does a five-frame run. -/
theorem ring_index_advances_mod_ringLength_witness :
    ((((advanceFrameResource 3)^[5]) sampleApp).mCurrFrameResourceIndex = 5 % 3)
    ∧ (runFrames 3 [sampleInput, sampleInput, sampleInput, sampleInput, sampleInput]
        sampleApp).1.mCurrFrameResourceIndex = 5 % 3 := by
  have h := ring_index_advances_mod_ringLength 3 5 sampleApp rfl
  exact ⟨h.1, h.2.2 [sampleInput, sampleInput, sampleInput, sampleInput, sampleInput] rfl⟩

/-- C5: in every submitted frame, the frame's recorded drawing commands
are enqueued to the GPU queue strictly before the fence signal for that
frame, and the fence signal is issued exactly once per submitted frame,
after the command enqueue: the frame trace ends with the enqueue, the
present and the signal, and nothing before that suffix enqueues or
signals. -/
theorem frame_signal_once_after_command_enqueue (R : Nat) (inp : FrameInput) (s : ShapesApp) :
    ∃ l, (frameStep R inp s).2
        = l ++ [Ev.executeCommandLists, Ev.present, Ev.signal (s.mCurrentFence + 1)]
      ∧ (∀ ev ∈ l, ev ≠ Ev.executeCommandLists ∧ ∀ w, ev ≠ Ev.signal w)
      ∧ signalValues (frameStep R inp s).2 = [s.mCurrentFence + 1] :=
  ⟨(Update R inp s).2, frameStep_events R inp s, Update_no_submission R inp s,
    frameStep_signalValues R inp s⟩

/-- Witness for C5: the sample frame's trace decomposes as required, with
signal value 1. -/
theorem frame_signal_once_after_command_enqueue_witness :
    ∃ l, (frameStep 3 sampleInput sampleApp).2
        = l ++ [Ev.executeCommandLists, Ev.present, Ev.signal 1]
      ∧ (∀ ev ∈ l, ev ≠ Ev.executeCommandLists ∧ ∀ w, ev ≠ Ev.signal w)
      ∧ signalValues (frameStep 3 sampleInput sampleApp).2 = [1] :=
  frame_signal_once_after_command_enqueue 3 sampleInput sampleApp

/-- C6: mutating an item's transform a second time while its dirty count
is strictly between 0 and the ring length `R` resets the count to `R` (not
additively), so full propagation from the second mutation takes exactly
`R` frames — after any `n ≤ R` further frames the count reads `R - n`, and
after `R` frames every slot holds the new transform — independent of how
much propagation the first mutation had completed. -/
theorem remutation_resets_dirty_and_propagates_in_R (R : Nat) (hR : 0 < R)
    (e : RenderItem) (w : Mat4) (hlo : 0 < e.NumFramesDirty)
    (hhi : e.NumFramesDirty < (R : Int)) :
    ((mutateWorld R w e).NumFramesDirty = (R : Int))
    ∧ ((mutateWorld R w e).NumFramesDirty ≠ e.NumFramesDirty + (R : Int))
    ∧ (∀ s inps p, ItemInv R p (mutateWorld R w e) s → inps.length = R →
        ∀ k, k < R →
          (slotObjectCB (runFrames R inps s).1 k).getD e.ObjCBIndex dObj
            = ⟨XMMatrixTranspose w⟩)
    ∧ (∀ (s : ShapesApp) (inps : List FrameInput) (p : Nat),
        s.mAllRitems.get? p = some (mutateWorld R w e) → inps.length ≤ R →
        (runFrames R inps s).1.mAllRitems.get? p
          = some { e with World := w, NumFramesDirty := (R : Int) - inps.length }) := by
  refine ⟨rfl, ?_, ?_, ?_⟩
  · show (R : Int) ≠ e.NumFramesDirty + (R : Int)
    omega
  · intro s inps p hinv hlen k hk
    exact full_propagation R hR s inps p (mutateWorld R w e) hinv (le_refl _) hlen k hk
  · intro s inps p hp hlen
    have h := runFrames_item_dirty R p (mutateWorld R w e) inps s hp
      (by show (inps.length : Int) ≤ (R : Int); exact_mod_cast hlen)
    exact h

/-- Witness for C6: re-mutating the half-propagated sample item resets its
count to 3; three frames later all three slots hold the new transform and
the count reads 0. -/
theorem remutation_resets_dirty_and_propagates_in_R_witness :
    0 < 3 ∧ 0 < sampleItemHalf.NumFramesDirty ∧ sampleItemHalf.NumFramesDirty < (3 : Int)
    ∧ ((mutateWorld 3 wSample sampleItemHalf).NumFramesDirty = (3 : Int))
    ∧ (∀ k, k < 3 →
        (slotObjectCB (runFrames 3 [sampleInput, sampleInput, sampleInput] sampleAppMut).1
            k).getD 0 dObj = ⟨XMMatrixTranspose wSample⟩)
    ∧ (runFrames 3 [sampleInput, sampleInput, sampleInput] sampleAppMut).1.mAllRitems.get? 0
        = some { sampleItemHalf with World := wSample, NumFramesDirty := 0 } := by
  have h := remutation_resets_dirty_and_propagates_in_R 3 (by decide) sampleItemHalf wSample
    (by decide) (by decide)
  refine ⟨by decide, by decide, by decide, h.1, ?_, ?_⟩
  · exact h.2.2.1 sampleAppMut [sampleInput, sampleInput, sampleInput] 0
      ⟨by decide, by decide, by decide, by decide⟩ rfl
  · exact h.2.2.2 sampleAppMut [sampleInput, sampleInput, sampleInput] 0 (by decide) (by decide)

/-- C7: every frame, the aggregate scene-pass record is recomputed and
written exactly once, unconditionally (no dirty-tracking guard: the
statement holds for every state and input), into the current slot's pass
buffer at fixed record index 0. -/
theorem main_pass_written_once_unconditionally (R : Nat) (inp : FrameInput) (s : ShapesApp) :
    ((Update R inp s).2.filter isPassWrite
        = [Ev.passWrite ((s.mCurrFrameResourceIndex + 1) % R) 0])
    ∧ (∀ (gt : GameTimer) (s' : ShapesApp),
        (UpdateMainPassCB gt s').2 = [Ev.passWrite s'.mCurrFrameResourceIndex 0]
        ∧ (currFrameResource (UpdateMainPassCB gt s').1).PassCB
            = (currFrameResource s').PassCB.set 0 (computeMainPassCB gt s')
        ∧ (UpdateMainPassCB gt s').1.mMainPassCB = computeMainPassCB gt s'
        ∧ ∀ k, k ≠ s'.mCurrFrameResourceIndex →
            (UpdateMainPassCB gt s').1.mFrameResources.getD k dFR
              = s'.mFrameResources.getD k dFR) :=
  ⟨Update_passWrites R inp s, fun gt s' =>
    ⟨UpdateMainPassCB_events gt s', UpdateMainPassCB_passCB gt s',
     UpdateMainPassCB_member gt s', fun k hk => UpdateMainPassCB_other_slots gt s' k hk⟩⟩

/-- Witness for C7: the sample update's pass writes are exactly one write
on slot 1 at record 0, and slot 2 is untouched by the pass update. -/
theorem main_pass_written_once_unconditionally_witness :
    ((Update 3 sampleInput sampleApp).2.filter isPassWrite = [Ev.passWrite 1 0])
    ∧ (UpdateMainPassCB sampleInput.gt sampleApp).1.mFrameResources.getD 2 dFR
        = sampleApp.mFrameResources.getD 2 dFR := by
  have h := main_pass_written_once_unconditionally 3 sampleInput sampleApp
  exact ⟨h.1, (h.2 sampleInput.gt sampleApp).2.2.2 2 (by decide)⟩

/-- C8: if a slot's object buffer lacks capacity for the number of
drawable items, this is detected at buffer-provisioning (ring-construction)
time — the provisioning call itself reports the fatal configuration error
**ResourceExhausted** and ring construction yields no slot list at all, so
no update pass can ever run over it — and it is not retried; with
sufficient capacity, construction succeeds with every slot able to hold
every item's record. -/
theorem buffer_capacity_checked_at_provisioning (R capacity itemCount : Nat) (hR : 0 < R) :
    (capacity < itemCount →
      provisionFrameResource capacity 1 itemCount
          = Except.error ProvisionError.resourceExhausted
        ∧ BuildFrameResources R capacity itemCount
            = Except.error ProvisionError.resourceExhausted
        ∧ ∀ slots, BuildFrameResources R capacity itemCount ≠ Except.ok slots)
    ∧ (itemCount ≤ capacity →
        ∃ slots, BuildFrameResources R capacity itemCount = Except.ok slots
          ∧ slots.length = R
          ∧ ∀ fr ∈ slots, fr.ObjectCB.length = capacity ∧ itemCount ≤ fr.ObjectCB.length) := by
  constructor
  · intro h
    refine ⟨by rw [provisionFrameResource, if_pos h],
      BuildFrameResources_error R capacity itemCount hR h, ?_⟩
    intro slots hs
    rw [BuildFrameResources_error R capacity itemCount hR h] at hs
    exact Except.noConfusion hs
  · intro h
    refine ⟨_, BuildFrameResources_ok R capacity itemCount h, List.length_replicate _ _, ?_⟩
    intro fr hfr
    have hfr2 := List.eq_of_mem_replicate hfr
    subst hfr2
    constructor
    · exact List.length_replicate _ _
    · rw [List.length_replicate]
      exact h

/-- Witness for C8: a ring of 3 slots with capacity 2 cannot serve 5
items — construction fails fatally at provisioning — while capacity 5
succeeds. -/
theorem buffer_capacity_checked_at_provisioning_witness :
    0 < 3 ∧ 2 < 5
    ∧ BuildFrameResources 3 2 5 = Except.error ProvisionError.resourceExhausted
    ∧ ∃ slots, BuildFrameResources 3 5 5 = Except.ok slots ∧ slots.length = 3 := by
  refine ⟨by decide, by decide, ?_, ?_⟩
  · exact ((buffer_capacity_checked_at_provisioning 3 2 5 (by decide)).1 (by decide)).2.1
  · obtain ⟨slots, h1, h2, _⟩ :=
      (buffer_capacity_checked_at_provisioning 3 5 5 (by decide)).2 (by decide)
    exact ⟨slots, h1, h2⟩

/-- C9: the per-object update pass mutates, for each drawable item, only
its dirty count and the current slot's object-buffer record at dirty
items' slot indices: every item's world matrix, slot index, geometry
reference and draw parameters, the object buffers of every non-current
slot, the current slot's pass buffer and watermark, and the rest of the
application state are left unchanged by the pass. -/
theorem object_pass_touches_only_dirty_and_current_slot (s : ShapesApp) :
    ((UpdateObjectCBs s).1.mAllRitems = s.mAllRitems.map decDirty)
    ∧ (∀ e : RenderItem, (decDirty e).World = e.World
        ∧ (decDirty e).ObjCBIndex = e.ObjCBIndex
        ∧ (decDirty e).Geo = e.Geo
        ∧ (decDirty e).PrimitiveType = e.PrimitiveType
        ∧ (decDirty e).IndexCount = e.IndexCount
        ∧ (decDirty e).StartIndexLocation = e.StartIndexLocation
        ∧ (decDirty e).BaseVertexLocation = e.BaseVertexLocation)
    ∧ (∀ k, k ≠ s.mCurrFrameResourceIndex →
        (UpdateObjectCBs s).1.mFrameResources.getD k dFR = s.mFrameResources.getD k dFR)
    ∧ (∀ i d, (∀ e ∈ s.mAllRitems, 0 < e.NumFramesDirty → e.ObjCBIndex ≠ i) →
        (slotObjectCB (UpdateObjectCBs s).1 s.mCurrFrameResourceIndex).getD i d
          = (slotObjectCB s s.mCurrFrameResourceIndex).getD i d)
    ∧ ((currFrameResource (UpdateObjectCBs s).1).PassCB = (currFrameResource s).PassCB)
    ∧ ((currFrameResource (UpdateObjectCBs s).1).Fence = (currFrameResource s).Fence)
    ∧ ((UpdateObjectCBs s).1.mCurrFrameResourceIndex = s.mCurrFrameResourceIndex)
    ∧ ((UpdateObjectCBs s).1.mCurrentFence = s.mCurrentFence) :=
  ⟨UpdateObjectCBs_items s, decDirty_other_fields,
   UpdateObjectCBs_other_slots s,
   fun i d h => UpdateObjectCBs_clean_positions s i d h,
   UpdateObjectCBs_passCB s, UpdateObjectCBs_slotFence s, rfl, rfl⟩

/-- Witness for C9: on the sample state, the pass maps `decDirty` over the
items, leaves slot 2 untouched, and leaves the clean item's record (index
1 of the current slot's buffer) untouched. -/
theorem object_pass_touches_only_dirty_and_current_slot_witness :
    ((UpdateObjectCBs sampleApp).1.mAllRitems = sampleApp.mAllRitems.map decDirty)
    ∧ ((UpdateObjectCBs sampleApp).1.mFrameResources.getD 2 dFR
        = sampleApp.mFrameResources.getD 2 dFR)
    ∧ ((slotObjectCB (UpdateObjectCBs sampleApp).1 0).getD 1 dObj
        = (slotObjectCB sampleApp 0).getD 1 dObj) := by
  have h := object_pass_touches_only_dirty_and_current_slot sampleApp
  exact ⟨h.1, h.2.2.1 2 (by decide), h.2.2.2.1 1 dObj (by decide)⟩

/-- C10: for every drawable item, the dirty count always stays within 0 to
the ring length inclusive: it is initialized to the ring length, it is
decremented only when strictly positive (clean items are left alone), and
it therefore never becomes negative under any sequence of update-pass
frames. -/
theorem dirtyCount_bounded_zero_to_ringLength (R : Nat) (inps : List FrameInput)
    (s : ShapesApp)
    (h : ∀ e ∈ s.mAllRitems, 0 ≤ e.NumFramesDirty ∧ e.NumFramesDirty ≤ (R : Int)) :
    (∀ e ∈ (runFrames R inps s).1.mAllRitems,
        0 ≤ e.NumFramesDirty ∧ e.NumFramesDirty ≤ (R : Int))
    ∧ (({} : RenderItem).NumFramesDirty = (gNumFrameResources : Int))
    ∧ (∀ e : RenderItem, ¬ 0 < e.NumFramesDirty → decDirty e = e) :=
  ⟨runFrames_dirty_bounds R (R : Int) inps s h, rfl, decDirty_of_not_dirty⟩

/-- Witness for C10: after two frames from the sample state the first
item's dirty count is still within `[0, 3]`. -/
theorem dirtyCount_bounded_zero_to_ringLength_witness :
    0 ≤ ((runFrames 3 [sampleInput, sampleInput] sampleApp).1.mAllRitems.getD 0
          {}).NumFramesDirty
    ∧ ((runFrames 3 [sampleInput, sampleInput] sampleApp).1.mAllRitems.getD 0
          {}).NumFramesDirty ≤ (3 : Int) :=
  (dirtyCount_bounded_zero_to_ringLength 3 [sampleInput, sampleInput] sampleApp (by decide)).1
    _ (by decide)
